import Mathlib

/-!
Shallow embedding of the document store in `hpc_mcp/db/tool.py`
(functions `database_save`, `database_get`, `database_query` over the
`DocumentStore` SQLAlchemy model backed by an in-memory SQLite table).

Modelling conventions:
* A stored JSON payload (the `data` column) is an association list from
  string keys to scalar JSON values; the scalars exercised by the spec are
  strings, integers and null.
* The store is the list of table rows in rowid (creation) order.
* SQLite assigns a fresh rowid of `max existing id + 1` to an inserted row
  whose `id` column is not supplied; `database_save` never supplies it.
* `ORDER BY timestamp DESC` with no secondary key is modelled as a stable
  sort by timestamp descending, so rows with equal timestamps keep table
  order, which is what the SQLite scan produces.
* `LIMIT n` returns the first `n` rows for `n ≥ 0` and is unbounded for
  negative `n`, as in SQLite.
* Wall-clock time (`time.time()`) is passed to `database_save` explicitly.
-/

/-- Scalar JSON values held in a payload (`data` column entries). -/
inductive JVal where
  | jstr (s : String)
  | jnum (n : Int)
  | jnull
  deriving DecidableEq, Repr

/-- A JSON object payload: association list in key-insertion order. -/
abbrev Payload := List (String × JVal)

/-- Python `dict.get`: first binding of the key, if any. -/
def getKey : Payload → String → Option JVal
  | [], _ => none
  | (k', v) :: rest, k => if k' = k then some v else getKey rest k

/-- Python `dict[k] = v`: replace the binding in place, else add at end. -/
def setKey : Payload → String → JVal → Payload
  | [], k, v => [(k, v)]
  | (k', v') :: rest, k, v =>
      if k' = k then (k, v) :: rest else (k', v') :: setKey rest k v

/-- Python truthiness of a scalar, as tested by `if record_id:`. -/
def truthy : JVal → Bool
  | .jstr s => s != ""
  | .jnum n => n != 0
  | .jnull => false

/-- Truthiness of `data.get("id")` (a missing key yields `None`, falsy). -/
def truthyOpt : Option JVal → Bool
  | none => false
  | some v => truthy v

/-- SQLite comparison `DocumentStore.id == record_id` in the upsert lookup:
the INTEGER column applies NUMERIC affinity to the compared value, so an
integer matches directly and a string matches when it converts to that
number.  The string branch parses integer literals only (`toInt?`), an
under-approximation of SQLite's numeric conversion, which also accepts
real-number spellings such as "1.0"; no theorem below depends on the
string branch. -/
def idMatches (v : JVal) (i : Nat) : Bool :=
  match v with
  | .jstr s => s.toInt? == some (i : Int)
  | .jnum n => n == (i : Int)
  | .jnull => false

/-- One row of the `document_store` table.  The field `ns` embeds the
`namespace` column (a Lean keyword). -/
structure Doc where
  id : Nat
  ns : String
  data : Payload
  timestamp : Nat
  deriving DecidableEq, Repr

/-- The whole table, rows in rowid (creation) order. -/
structure Store where
  docs : List Doc
  deriving DecidableEq, Repr

/-- The store at process start: the table is created empty. -/
def Store.empty : Store := ⟨[]⟩

/-- Largest rowid present (0 when the table is empty). -/
def maxId (st : Store) : Nat := st.docs.foldl (fun m d => max m d.id) 0

/-- The rowid SQLite assigns to the next inserted row. -/
def nextId (st : Store) : Nat := maxId st + 1

/-- Outcome of `database_save`: the two success messages of the source,
distinguished by whether an existing record was updated or a new one
created, each carrying the record id and table name used in the message. -/
inductive SaveResult where
  | updated (id : Nat) (table : String)
  | createdNew (id : Nat) (table : String)
  deriving DecidableEq, Repr

/-- The `session.query(...).filter(namespace == table, id == record_id)
.first()` lookup of `database_save`, scanning in table order. -/
def findExisting (docs : List Doc) (table : String) (rid : JVal) : Option Doc :=
  docs.find? (fun d => d.ns == table && idMatches rid d.id)

/-- The ORM update `existing.data = data; existing.timestamp = time.time()`:
rewrite the row with primary key `pk`, leaving every other row unchanged. -/
def updateById (docs : List Doc) (pk : Nat) (data : Payload) (now : Nat) :
    List Doc :=
  docs.map (fun d =>
    if d.id = pk then { d with data := data, timestamp := now } else d)

/-- The insert path of `database_save`: add a row with the supplied
namespace, the payload stored verbatim, the current time, and a fresh
rowid. -/
def insertNew (st : Store) (now : Nat) (table : String) (data : Payload) :
    Store × SaveResult :=
  (⟨st.docs ++ [⟨nextId st, table, data, now⟩]⟩,
   .createdNew (nextId st) table)

/-- Embedding of `database_save(table, data)` of `hpc_mcp/db/tool.py`: if `data` holds a
truthy `id` matching an existing row of the same namespace, update that row
in place; otherwise insert a new row. -/
def database_save (st : Store) (now : Nat) (table : String) (data : Payload) :
    Store × SaveResult :=
  match getKey data "id" with
  | some rid =>
      if truthy rid then
        match findExisting st.docs table rid with
        | some existing =>
            (⟨updateById st.docs existing.id data now⟩,
             .updated existing.id table)
        | none => insertNew st now table data
      else insertNew st now table data
  | none => insertNew st now table data

/-- Result dictionary of `database_get`.  Fields are `Option`-valued
because the exception branch of the source omits the `results` and `count`
keys that the not-found branch includes. -/
structure GetResult where
  success : Bool
  results : Option (List Payload)
  count : Option Nat
  error : Option String
  deriving DecidableEq, Repr

/-- Embedding of `res["id"] = record.id`: stamp the row's id into the returned payload. -/
def stampId (p : Payload) (i : Nat) : Payload := setKey p "id" (.jnum (i : Int))

/-- Embedding of `database_get(table, record_id)`: exact match on namespace and id,
returning the payload with the id stamped in, or a not-found dictionary. -/
def database_get (st : Store) (table : String) (record_id : Nat) : GetResult :=
  match st.docs.find? (fun d => d.ns == table && d.id == record_id) with
  | some record =>
      { success := true
        results := some [stampId record.data record.id]
        count := some 1
        error := none }
  | none =>
      { success := false
        results := some []
        count := some 0
        error := some ("Record " ++ toString record_id ++ " not found.") }

/-- The dictionary shape of `database_get`'s exception branch
(`{"success": False, "error": str(e)}`): no `results` or `count` key. -/
def getOperationalFailure (e : String) : GetResult :=
  { success := false, results := none, count := none, error := some e }

/-- SQLite evaluation of the filter `data[query_key].astext == str(query_value)`,
which compiles to `JSON_EXTRACT(data, key) = ?` with the bound parameter
always a TEXT value.  A missing key or a JSON null extracts to SQL NULL,
which equals nothing; a numeric field extracts with INTEGER storage class,
which SQLite never equates with a TEXT operand (neither side of the
comparison carries affinity); only a string field, extracted as TEXT,
compares equal — exactly when its text equals the parameter. -/
def sqlTextEq (o : Option JVal) (t : String) : Bool :=
  match o with
  | none => false
  | some .jnull => false
  | some (.jnum _) => false
  | some (.jstr s) => s == t

/-- Python `str()` of the supplied query value. -/
def pyStr : JVal → String
  | .jstr s => s
  | .jnum n => toString n
  | .jnull => "None"

/-- Row order of `ORDER BY timestamp DESC`: `tsGe d e` holds when `d` may
come before `e` in the output. -/
def tsGe (d e : Doc) : Prop := e.timestamp ≤ d.timestamp

instance : DecidableRel tsGe :=
  fun d e => inferInstanceAs (Decidable (e.timestamp ≤ d.timestamp))

instance : IsTotal Doc tsGe := ⟨fun a b => Nat.le_total b.timestamp a.timestamp⟩

instance : IsTrans Doc tsGe := ⟨fun _ _ _ hab hbc => Nat.le_trans hbc hab⟩

/-- SQLite `LIMIT`: first `n` rows for `n ≥ 0`, all rows for negative `n`. -/
def applyLimit {α : Type} (limit : Int) (l : List α) : List α :=
  if limit < 0 then l else l.take limit.toNat

/-- The WHERE clauses of `database_query`: rows of the namespace, further
filtered by the textual predicate exactly when `query_key` is truthy and
`query_value` is not `None`. -/
def filteredDocs (st : Store) (table : String) (query_key : Option String)
    (query_value : Option JVal) : List Doc :=
  let base := st.docs.filter (fun d => d.ns == table)
  match query_key, query_value with
  | some k, some v =>
      if k == "" then base
      else base.filter (fun d => sqlTextEq (getKey d.data k) (pyStr v))
  | _, _ => base

/-- The rows `database_query` fetches: filter, order by timestamp
descending, truncate to `limit`. -/
def queryRecords (st : Store) (table : String) (query_key : Option String)
    (query_value : Option JVal) (limit : Int) : List Doc :=
  applyLimit limit (List.insertionSort tsGe (filteredDocs st table query_key query_value))

/-- Result dictionary of `database_query` on its success path. -/
structure QueryResult where
  success : Bool
  results : List Payload
  count : Nat
  deriving DecidableEq, Repr

/-- Embedding of `database_query(table, query_key, query_value, limit)` of
`hpc_mcp/db/tool.py`: fetch the rows and stamp each row's id into its
returned payload. -/
def database_query (st : Store) (table : String) (query_key : Option String)
    (query_value : Option JVal) (limit : Int) : QueryResult :=
  let results :=
    (queryRecords st table query_key query_value limit).map
      (fun r => stampId r.data r.id)
  { success := true, results := results, count := results.length }

/-- One call to `database_save`, for reasoning about call sequences. -/
structure SaveOp where
  now : Nat
  table : String
  data : Payload
  deriving DecidableEq, Repr

/-- Fold a sequence of `database_save` calls over a store. -/
def applySaves (ops : List SaveOp) (st : Store) : Store :=
  ops.foldl (fun s op => (database_save s op.now op.table op.data).fst) st

/-- Well-formedness of the table: rowids strictly increase in creation
order and are positive. -/
def IdsOk (st : Store) : Prop :=
  ((st.docs.map Doc.id).Pairwise (· < ·)) ∧ ∀ d ∈ st.docs, 0 < d.id

/-- A sample one-document store, built by a single insert. -/
def exSt1 : Store := (database_save Store.empty 0 "a" [("k", JVal.jstr "v")]).fst

/-- A store with two documents of namespace "a" sharing timestamp 7. -/
def exStTie : Store :=
  (database_save (database_save Store.empty 7 "a" [("k", JVal.jstr "x")]).fst
    7 "a" [("k", JVal.jstr "y")]).fst

/-- A store with three documents of namespace "a" written at times 1 < 2 < 3. -/
def exStT3 : Store :=
  (database_save (database_save (database_save Store.empty
    1 "a" [("k", JVal.jstr "p")]).fst
    2 "a" [("k", JVal.jstr "q")]).fst
    3 "a" [("k", JVal.jstr "r")]).fst

lemma le_foldl_max_init (l : List Doc) (a : Nat) :
    a ≤ l.foldl (fun m d => max m d.id) a := by
  induction l generalizing a with
  | nil => exact Nat.le_refl a
  | cons d t ih => exact Nat.le_trans (Nat.le_max_left a d.id) (ih _)

lemma mem_le_foldl_max (l : List Doc) (a : Nat) (d : Doc) (hd : d ∈ l) :
    d.id ≤ l.foldl (fun m d => max m d.id) a := by
  induction l generalizing a with
  | nil => cases hd
  | cons e t ih =>
    cases hd with
    | head => exact Nat.le_trans (Nat.le_max_right a d.id) (le_foldl_max_init t _)
    | tail _ h => exact ih _ h

lemma mem_id_le_maxId (st : Store) (d : Doc) (hd : d ∈ st.docs) :
    d.id ≤ maxId st :=
  mem_le_foldl_max st.docs 0 d hd

lemma mem_id_ne_nextId (st : Store) (d : Doc) (hd : d ∈ st.docs) :
    d.id ≠ nextId st :=
  Nat.ne_of_lt (Nat.lt_succ_of_le (mem_id_le_maxId st d hd))

/-! ### Helper lemmas about the update path -/

lemma updateById_map_id (docs : List Doc) (pk : Nat) (p : Payload) (now : Nat) :
    (updateById docs pk p now).map Doc.id = docs.map Doc.id := by
  unfold updateById
  rw [List.map_map]
  apply List.map_congr_left
  intro d _
  by_cases h : d.id = pk <;> simp [h]

lemma updateById_map_id_ns (docs : List Doc) (pk : Nat) (p : Payload) (now : Nat) :
    (updateById docs pk p now).map (fun d => (d.id, d.ns))
      = docs.map (fun d => (d.id, d.ns)) := by
  unfold updateById
  rw [List.map_map]
  apply List.map_congr_left
  intro d _
  by_cases h : d.id = pk <;> simp [h]

lemma mem_updateById (docs : List Doc) (pk : Nat) (p : Payload) (now : Nat)
    (d' : Doc) (h : d' ∈ updateById docs pk p now) :
    ∃ d ∈ docs, d' = (if d.id = pk then { d with data := p, timestamp := now } else d) := by
  obtain ⟨d, hd, rfl⟩ := List.mem_map.mp h
  exact ⟨d, hd, rfl⟩

/-- Every `database_save` call either leaves the (id, namespace) column
pairs unchanged, in order, or appends exactly one pair carrying the fresh
rowid and the requested namespace. -/
lemma save_id_ns_shape (st : Store) (now : Nat) (t : String) (p : Payload) :
    (database_save st now t p).fst.docs.map (fun d => (d.id, d.ns))
      = st.docs.map (fun d => (d.id, d.ns))
    ∨ (database_save st now t p).fst.docs.map (fun d => (d.id, d.ns))
      = st.docs.map (fun d => (d.id, d.ns)) ++ [(nextId st, t)] := by
  unfold database_save insertNew
  cases getKey p "id" with
  | none => right; simp
  | some rid =>
    by_cases htr : truthy rid
    · simp only [htr, if_true]
      cases hfind : findExisting st.docs t rid with
      | none => right; simp
      | some existing => left; exact updateById_map_id_ns st.docs existing.id p now
    · simp only [htr, if_false]
      right; simp

/-! ### Helper lemmas about payload stamping -/

lemma getKey_setKey_self (p : Payload) (k : String) (v : JVal) :
    getKey (setKey p k v) k = some v := by
  induction p with
  | nil => simp [setKey, getKey]
  | cons kv rest ih =>
    by_cases h : kv.1 = k
    · simp [setKey, getKey, h]
    · simp [setKey, getKey, h, ih]

lemma getKey_stampId (p : Payload) (i : Nat) :
    getKey (stampId p i) "id" = some (JVal.jnum (i : Int)) :=
  getKey_setKey_self p "id" (JVal.jnum (i : Int))

/-! ### Preservation of the rowid invariant -/

lemma idsOk_empty : IdsOk Store.empty := by
  constructor
  · exact List.Pairwise.nil
  · intro d hd; cases hd

lemma idsOk_insertNew (st : Store) (now : Nat) (t : String) (p : Payload)
    (h : IdsOk st) : IdsOk (insertNew st now t p).fst := by
  obtain ⟨hpw, hpos⟩ := h
  constructor
  · show ((st.docs ++ [(⟨nextId st, t, p, now⟩ : Doc)]).map Doc.id).Pairwise (· < ·)
    rw [List.map_append]
    refine List.pairwise_append.mpr ⟨hpw, List.pairwise_singleton _ _, ?_⟩
    intro a ha b hb
    obtain ⟨d, hd, rfl⟩ := List.mem_map.mp ha
    simp only [List.map_cons, List.map_nil, List.mem_singleton] at hb
    subst hb
    exact Nat.lt_succ_of_le (mem_id_le_maxId st d hd)
  · intro d hd
    rcases List.mem_append.mp hd with hl | hr
    · exact hpos d hl
    · simp only [List.mem_singleton] at hr
      subst hr
      exact Nat.succ_pos _

lemma idsOk_save (st : Store) (now : Nat) (t : String) (p : Payload)
    (h : IdsOk st) : IdsOk (database_save st now t p).fst := by
  unfold database_save
  cases hg : getKey p "id" with
  | none => exact idsOk_insertNew st now t p h
  | some rid =>
    by_cases htr : truthy rid
    · simp only [htr, if_true]
      cases hfind : findExisting st.docs t rid with
      | none => exact idsOk_insertNew st now t p h
      | some existing =>
        constructor
        · show ((updateById st.docs existing.id p now).map Doc.id).Pairwise (· < ·)
          rw [updateById_map_id]
          exact h.1
        · intro d hd
          obtain ⟨d₀, hd₀, heq⟩ := mem_updateById st.docs existing.id p now d hd
          have hid : d.id = d₀.id := by
            subst heq
            by_cases hc : d₀.id = existing.id <;> simp [hc]
          rw [hid]
          exact h.2 d₀ hd₀
    · simp only [htr, if_false]
      exact idsOk_insertNew st now t p h

lemma idsOk_applySaves (ops : List SaveOp) (st : Store) (h : IdsOk st) :
    IdsOk (applySaves ops st) := by
  induction ops generalizing st with
  | nil => exact h
  | cons op rest ih =>
    exact ih _ (idsOk_save st op.now op.table op.data h)

lemma idMatches_jnum_iff (a b : Nat) :
    idMatches (JVal.jnum (a : Int)) b = true ↔ a = b := by
  unfold idMatches
  constructor
  · intro h
    exact_mod_cast eq_of_beq h
  · intro h
    subst h
    simp

/-- When rowids are pairwise distinct, the upsert lookup of
`database_save` for the embedded id of a document of the right namespace
finds exactly that document. -/
lemma findExisting_eq_self (docs : List Doc) (t : String) (d : Doc)
    (hpw : (docs.map Doc.id).Pairwise (· ≠ ·))
    (hd : d ∈ docs) (hns : d.ns = t) :
    findExisting docs t (JVal.jnum (d.id : Int)) = some d := by
  induction docs with
  | nil => cases hd
  | cons e rest ih =>
    have hpw' : (rest.map Doc.id).Pairwise (· ≠ ·) := by
      simp only [List.map_cons, List.pairwise_cons] at hpw
      exact hpw.2
    have hne : ∀ r ∈ rest, e.id ≠ r.id := by
      simp only [List.map_cons, List.pairwise_cons] at hpw
      intro r hr
      exact hpw.1 r.id (List.mem_map_of_mem Doc.id hr)
    unfold findExisting
    by_cases hpred : (e.ns == t && idMatches (JVal.jnum (d.id : Int)) e.id) = true
    · have heid : d.id = e.id := by
        have h2 : idMatches (JVal.jnum (d.id : Int)) e.id = true := by
          have h3 := hpred
          simp only [Bool.and_eq_true] at h3
          exact h3.2
        exact (idMatches_jnum_iff d.id e.id).mp h2
      rcases List.mem_cons.mp hd with rfl | hdr
      · exact List.find?_cons_of_pos _ hpred
      · exact absurd heid.symm (hne d hdr)
    · have hdr : d ∈ rest := by
        rcases List.mem_cons.mp hd with rfl | hmem
        · exact absurd (by simp [hns, (idMatches_jnum_iff d.id d.id).mpr rfl]) hpred
        · exact hmem
      have hstep :
          List.find? (fun e => e.ns == t && idMatches (JVal.jnum (d.id : Int)) e.id) (e :: rest)
            = List.find? (fun e => e.ns == t && idMatches (JVal.jnum (d.id : Int)) e.id) rest :=
        List.find?_cons_of_neg _ hpred
      rw [hstep]
      exact ih hpw' hdr

lemma mem_filteredDocs_sub (st : Store) (t : String) (qk : Option String)
    (qv : Option JVal) (d : Doc) (h : d ∈ filteredDocs st t qk qv) :
    d ∈ st.docs ∧ d.ns = t := by
  have base : ∀ x, x ∈ st.docs.filter (fun e => e.ns == t) → x ∈ st.docs ∧ x.ns = t := by
    intro x hx
    have hx' := List.mem_filter.mp hx
    exact ⟨hx'.1, by simpa using hx'.2⟩
  cases qk with
  | none =>
    cases qv with
    | none => simp only [filteredDocs] at h; exact base d h
    | some v => simp only [filteredDocs] at h; exact base d h
  | some k =>
    cases qv with
    | none => simp only [filteredDocs] at h; exact base d h
    | some v =>
      simp only [filteredDocs] at h
      by_cases hk : (k == "") = true
      · rw [if_pos hk] at h
        exact base d h
      · rw [if_neg hk] at h
        exact base d (List.mem_filter.mp h).1

lemma mem_queryRecords_sub (st : Store) (t : String) (qk : Option String)
    (qv : Option JVal) (l : Int) (d : Doc) (h : d ∈ queryRecords st t qk qv l) :
    d ∈ st.docs ∧ d.ns = t := by
  unfold queryRecords applyLimit at h
  have hsorted : d ∈ List.insertionSort tsGe (filteredDocs st t qk qv) := by
    by_cases hl : l < 0
    · rwa [if_pos hl] at h
    · rw [if_neg hl] at h
      exact List.mem_of_mem_take h
  have hfil : d ∈ filteredDocs st t qk qv :=
    (List.perm_insertionSort tsGe _).mem_iff.mp hsorted
  exact mem_filteredDocs_sub st t qk qv d hfil

lemma sorted_queryRecords (st : Store) (t : String) (qk : Option String)
    (qv : Option JVal) (l : Int) :
    List.Sorted tsGe (queryRecords st t qk qv l) := by
  have hs : List.Sorted tsGe (List.insertionSort tsGe (filteredDocs st t qk qv)) :=
    List.sorted_insertionSort tsGe _
  unfold queryRecords applyLimit
  by_cases hl : l < 0
  · rwa [if_pos hl]
  · rw [if_neg hl]
    exact hs.sublist (List.take_sublist _ _)

/-- Case split on `database_save`: the table either gets one row rewritten
in place or one row appended. -/
lemma save_docs_cases (st : Store) (now : Nat) (t : String) (p : Payload) :
    (∃ pk, (database_save st now t p).fst.docs = updateById st.docs pk p now)
    ∨ (database_save st now t p).fst.docs
        = st.docs ++ [⟨nextId st, t, p, now⟩] := by
  unfold database_save insertNew
  cases getKey p "id" with
  | none => right; rfl
  | some rid =>
    by_cases htr : truthy rid
    · simp only [htr, if_true]
      cases findExisting st.docs t rid with
      | none => right; rfl
      | some existing => left; exact ⟨existing.id, rfl⟩
    · simp only [htr, if_false]
      right; rfl

/-- Inversion of a successful `database_get`: the returned payload is the
stored one of a row of the requested namespace and id, stamped with its
rowid. -/
lemma get_success_inv (st : Store) (t : String) (rid : Nat)
    (h : (database_get st t rid).success = true) :
    ∃ d, d ∈ st.docs ∧ d.ns = t ∧ d.id = rid
      ∧ (database_get st t rid).results = some [stampId d.data d.id] := by
  cases hfind : st.docs.find? (fun d => d.ns == t && d.id == rid) with
  | none =>
    have heq : database_get st t rid
        = { success := false, results := some [], count := some 0,
            error := some ("Record " ++ toString rid ++ " not found.") } := by
      unfold database_get
      rw [hfind]
    rw [heq] at h
    cases h
  | some record =>
    have heq : database_get st t rid
        = { success := true, results := some [stampId record.data record.id],
            count := some 1, error := none } := by
      unfold database_get
      rw [hfind]
    have hmem := List.mem_of_find?_eq_some hfind
    have hpred := List.find?_some hfind
    rw [Bool.and_eq_true] at hpred
    exact ⟨record, hmem, by simpa using hpred.1, by simpa using hpred.2, by rw [heq]⟩

/-- Inversion of `database_query` results: every returned payload is a
stored payload of a row of the queried namespace, stamped with its rowid. -/
lemma query_results_inv (st : Store) (t : String) (qk : Option String)
    (qv : Option JVal) (l : Int) (item : Payload)
    (h : item ∈ (database_query st t qk qv l).results) :
    ∃ d, d ∈ st.docs ∧ d.ns = t ∧ item = stampId d.data d.id := by
  unfold database_query at h
  obtain ⟨r, hr, rfl⟩ := List.mem_map.mp h
  obtain ⟨hmem, hns⟩ := mem_queryRecords_sub st t qk qv l r hr
  exact ⟨r, hmem, hns, rfl⟩

/-- C3 (confirmed). Id uniqueness and monotonicity: over every sequence of
`database_save` calls from the empty store, rowids are strictly increasing
in creation order, positive, and pairwise distinct; moreover any single
`database_save` call either leaves every (id, namespace) pair unchanged in
place (an update never touches them) or appends exactly one new pair with
the fresh id `nextId`, so an id is never reused or mutated. -/
theorem save_ids_unique_monotone_immutable (ops : List SaveOp) :
    (((applySaves ops Store.empty).docs.map Doc.id).Pairwise (· < ·))
    ∧ (∀ d ∈ (applySaves ops Store.empty).docs, 0 < d.id)
    ∧ (((applySaves ops Store.empty).docs.map Doc.id).Pairwise (· ≠ ·))
    ∧ (∀ st now t p,
        (database_save st now t p).fst.docs.map (fun d => (d.id, d.ns))
          = st.docs.map (fun d => (d.id, d.ns))
        ∨ (database_save st now t p).fst.docs.map (fun d => (d.id, d.ns))
          = st.docs.map (fun d => (d.id, d.ns)) ++ [(nextId st, t)]) := by
  have h := idsOk_applySaves ops Store.empty idsOk_empty
  exact ⟨h.1, h.2, h.1.imp (fun hlt => Nat.ne_of_lt hlt), save_id_ns_shape⟩

theorem save_ids_unique_monotone_immutable_witness :
    0 < (Doc.mk 1 "a" [] 0).id
    ∧ ((database_save Store.empty 0 "a" []).fst.docs.map (fun d => (d.id, d.ns))
        = Store.empty.docs.map (fun d => (d.id, d.ns))
      ∨ (database_save Store.empty 0 "a" []).fst.docs.map (fun d => (d.id, d.ns))
        = Store.empty.docs.map (fun d => (d.id, d.ns)) ++ [(nextId Store.empty, "a")]) :=
  ⟨(save_ids_unique_monotone_immutable [⟨0, "a", []⟩]).2.1 (Doc.mk 1 "a" [] 0) (by decide),
   (save_ids_unique_monotone_immutable []).2.2.2 Store.empty 0 "a" []⟩

/-- C1 (amended). Upsert behaviour of `database_save`: when the payload's
`id` field is the id of an existing document of namespace `t` and the store
is well formed, the call rewrites exactly that document's payload and
timestamp in place and reports the existing id as an update (no row is
added); when the payload's `id` field matches no document of `t`, the call
appends exactly one new document whose id is the next global rowid
`nextId st` — an id different from every id already in the store, though it
can coincide with the supplied advisory value when that value is exactly
the next rowid. -/
theorem save_upsert_amended (st : Store) (now : Nat) (t : String) (p : Payload) :
    (∀ d, IdsOk st → d ∈ st.docs → d.ns = t →
      getKey p "id" = some (JVal.jnum (d.id : Int)) →
      database_save st now t p
          = (⟨updateById st.docs d.id p now⟩, SaveResult.updated d.id t)
        ∧ (database_save st now t p).fst.docs.length = st.docs.length
        ∧ (database_save st now t p).fst.docs.map Doc.id = st.docs.map Doc.id)
    ∧ (∀ x : Int, getKey p "id" = some (JVal.jnum x) →
      (∀ d ∈ st.docs, d.ns = t → x ≠ (d.id : Int)) →
      database_save st now t p = insertNew st now t p
        ∧ (∀ d ∈ st.docs, d.id ≠ nextId st)) := by
  constructor
  · intro d hids hd hns hkey
    have hpos := hids.2 d hd
    have hpw : (st.docs.map Doc.id).Pairwise (· ≠ ·) :=
      hids.1.imp (fun hlt => Nat.ne_of_lt hlt)
    have hfind := findExisting_eq_self st.docs t d hpw hd hns
    have htr : truthy (JVal.jnum (d.id : Int)) = true := by
      simp only [truthy, bne_iff_ne, ne_eq, decide_eq_true_eq]
      exact_mod_cast Nat.pos_iff_ne_zero.mp hpos
    have heq : database_save st now t p
        = (⟨updateById st.docs d.id p now⟩, SaveResult.updated d.id t) := by
      simp only [database_save, hkey, htr, if_true, hfind]
    refine ⟨heq, ?_, ?_⟩
    · rw [heq]
      simp [updateById]
    · rw [heq]
      exact updateById_map_id st.docs d.id p now
  · intro x hkey hnomatch
    have hins : database_save st now t p = insertNew st now t p := by
      by_cases hx : x = 0
      · subst hx
        simp [database_save, hkey, truthy]
      · have htr : truthy (JVal.jnum x) = true := by
          simp [truthy, hx]
        have hfind : findExisting st.docs t (JVal.jnum x) = none := by
          unfold findExisting
          apply List.find?_eq_none.mpr
          intro e he hcontra
          rw [Bool.and_eq_true] at hcontra
          have hens : e.ns = t := by simpa using hcontra.1
          have hid : x = (e.id : Int) := by
            simpa [idMatches] using hcontra.2
          exact hnomatch e he hens hid
        simp only [database_save, hkey, htr, if_true, hfind]
    exact ⟨hins, fun d hd => mem_id_ne_nextId st d hd⟩

/-- C1 (counterexample). In the non-empty store `exSt1` (one document, id 1,
namespace "a"), saving a payload whose `id` field is 2 — matching no
existing document — creates the new document with rowid 2, exactly the
supplied advisory value, refuting the claim that the freshly allocated id
always differs from the supplied value. -/
theorem save_upsert_counterexample :
    exSt1.docs.map Doc.id = [1]
    ∧ exSt1.docs.map Doc.ns = ["a"]
    ∧ getKey [("id", JVal.jnum 2)] "id" = some (JVal.jnum 2)
    ∧ (database_save exSt1 1 "a" [("id", JVal.jnum 2)]).snd
        = SaveResult.createdNew 2 "a" := by
  decide

theorem save_upsert_amended_witness :
    database_save exSt1 5 "a" [("id", JVal.jnum 1), ("w", JVal.jstr "z")]
        = (⟨updateById exSt1.docs 1 [("id", JVal.jnum 1), ("w", JVal.jstr "z")] 5⟩,
           SaveResult.updated 1 "a")
    ∧ (database_save exSt1 1 "a" [("id", JVal.jnum 2)]
        = insertNew exSt1 1 "a" [("id", JVal.jnum 2)]) :=
  ⟨((save_upsert_amended exSt1 5 "a" [("id", JVal.jnum 1), ("w", JVal.jstr "z")]).1
      (Doc.mk 1 "a" [("k", JVal.jstr "v")] 0)
      (idsOk_save Store.empty 0 "a" [("k", JVal.jstr "v")] idsOk_empty)
      (by decide) (by decide) (by decide)).1,
   ((save_upsert_amended exSt1 1 "a" [("id", JVal.jnum 2)]).2
      2 (by decide) (by decide)).1⟩

/-- C2 (counterexample). Saving a payload with advisory `id` 5 into the
empty store inserts a document with rowid 1 whose persisted payload still
carries `id` 5: the stored payload's `id` field is NOT overwritten with the
newly allocated id before persisting. -/
theorem save_restamp_counterexample :
    (database_save Store.empty 0 "a" [("id", JVal.jnum 5)]).fst.docs
      = [⟨1, "a", [("id", JVal.jnum 5)], 0⟩]
    ∧ getKey [("id", JVal.jnum 5)] "id" = some (JVal.jnum 5)
    ∧ some (JVal.jnum 5) ≠ some (JVal.jnum 1) := by
  decide

/-- C2 (amended). The payload of every document `database_save` writes is
persisted verbatim — in particular a newly created document keeps the
caller-supplied `id` field — but every payload a reader receives from
`database_get` or `database_query` has its `id` field overwritten at read
time with the rowid of the record it came from, so readers always see the
store-assigned id. -/
theorem save_verbatim_readers_stamped :
    (∀ st now t p, ∀ d' ∈ (database_save st now t p).fst.docs,
        d' ∈ st.docs ∨ d'.data = p)
    ∧ (∀ st t rid, (database_get st t rid).success = true →
        ∃ d, d ∈ st.docs ∧ d.ns = t ∧ d.id = rid
          ∧ (database_get st t rid).results = some [stampId d.data d.id]
          ∧ getKey (stampId d.data d.id) "id" = some (JVal.jnum (d.id : Int)))
    ∧ (∀ st t qk qv l, ∀ item ∈ (database_query st t qk qv l).results,
        ∃ d, d ∈ st.docs ∧ item = stampId d.data d.id
          ∧ getKey item "id" = some (JVal.jnum (d.id : Int))) := by
  refine ⟨?_, ?_, ?_⟩
  · intro st now t p d' hd'
    rcases save_docs_cases st now t p with ⟨pk, hdocs⟩ | hdocs
    · rw [hdocs] at hd'
      obtain ⟨d, hd, heq⟩ := mem_updateById st.docs pk p now d' hd'
      by_cases hc : d.id = pk
      · right
        rw [heq, if_pos hc]
      · left
        rw [heq, if_neg hc]
        exact hd
    · rw [hdocs] at hd'
      rcases List.mem_append.mp hd' with hl | hr
      · exact Or.inl hl
      · right
        simp only [List.mem_singleton] at hr
        rw [hr]
  · intro st t rid h
    obtain ⟨d, hmem, hns, hid, hres⟩ := get_success_inv st t rid h
    exact ⟨d, hmem, hns, hid, hres, getKey_stampId d.data d.id⟩
  · intro st t qk qv l item hitem
    obtain ⟨d, hmem, _, heq⟩ := query_results_inv st t qk qv l item hitem
    exact ⟨d, hmem, heq, heq ▸ getKey_stampId d.data d.id⟩

theorem save_verbatim_readers_stamped_witness :
    ((⟨1, "a", [("id", JVal.jnum 5)], 0⟩ : Doc) ∈ Store.empty.docs
      ∨ (⟨1, "a", [("id", JVal.jnum 5)], 0⟩ : Doc).data = [("id", JVal.jnum 5)])
    ∧ (∃ d, d ∈ exSt1.docs ∧ d.ns = "a" ∧ d.id = 1
        ∧ (database_get exSt1 "a" 1).results = some [stampId d.data d.id]
        ∧ getKey (stampId d.data d.id) "id" = some (JVal.jnum (d.id : Int))) :=
  ⟨save_verbatim_readers_stamped.1 Store.empty 0 "a" [("id", JVal.jnum 5)]
      (⟨1, "a", [("id", JVal.jnum 5)], 0⟩ : Doc) (by decide),
   save_verbatim_readers_stamped.2.1 exSt1 "a" 1 (by decide)⟩

/-- C4 (confirmed). Namespace isolation: a successful `database_get` only
ever surfaces a stored document whose namespace equals the requested table
and whose id equals the requested id; every `database_query` result comes
from a stored document of the queried namespace; and `database_save` never
changes the namespace (or id) of any existing document — it only ever
appends a new (id, namespace) pair for the namespace it was called with.
Hence a document saved into one namespace is never returned by a `Get` or
`Query` against another. -/
theorem namespace_isolation :
    (∀ st t rid, (database_get st t rid).success = true →
      ∃ d, d ∈ st.docs ∧ d.ns = t ∧ d.id = rid
        ∧ (database_get st t rid).results = some [stampId d.data d.id])
    ∧ (∀ st t qk qv l, ∀ item ∈ (database_query st t qk qv l).results,
      ∃ d, d ∈ st.docs ∧ d.ns = t ∧ item = stampId d.data d.id)
    ∧ (∀ st now t p,
      (database_save st now t p).fst.docs.map (fun d => (d.id, d.ns))
        = st.docs.map (fun d => (d.id, d.ns))
      ∨ (database_save st now t p).fst.docs.map (fun d => (d.id, d.ns))
        = st.docs.map (fun d => (d.id, d.ns)) ++ [(nextId st, t)]) :=
  ⟨get_success_inv, query_results_inv, save_id_ns_shape⟩

theorem namespace_isolation_witness :
    (∃ d, d ∈ exSt1.docs ∧ d.ns = "a" ∧ d.id = 1
      ∧ (database_get exSt1 "a" 1).results = some [stampId d.data d.id])
    ∧ (∃ d, d ∈ exSt1.docs ∧ d.ns = "a"
      ∧ stampId [("k", JVal.jstr "v")] 1 = stampId d.data d.id) :=
  ⟨namespace_isolation.1 exSt1 "a" 1 (by decide),
   namespace_isolation.2.1 exSt1 "a" none none 10
     (stampId [("k", JVal.jstr "v")] 1) (by decide)⟩

/-- C5 (counterexample). Two documents with equal timestamps (ids 1 and 2)
are returned by `database_query` in id-ascending table order, not the
claimed id-descending order: the code orders by timestamp only and has no
id tie-break. -/
theorem query_tie_order_counterexample :
    exStTie.docs.map Doc.timestamp = [7, 7]
    ∧ exStTie.docs.map Doc.id = [1, 2]
    ∧ (database_query exStTie "a" none none 10).results
        = [stampId [("k", JVal.jstr "x")] 1, stampId [("k", JVal.jstr "y")] 2]
    ∧ (database_query exStTie "a" none none 10).results
        ≠ [stampId [("k", JVal.jstr "y")] 2, stampId [("k", JVal.jstr "x")] 1] := by
  decide

/-- C5 (amended). `database_query` orders results by write timestamp
descending only: the fetched rows are always sorted by `tsGe`, and
documents written at strictly increasing times t1 < t2 < t3 come back in
order t3, t2, t1; rows with equal timestamps are returned in table
(id-ascending) order, not id-descending. -/
theorem query_recency_order (st : Store) (t : String) (qk : Option String)
    (qv : Option JVal) (l : Int) :
    List.Sorted tsGe (queryRecords st t qk qv l)
    ∧ (database_query exStT3 "a" none none 3).results
        = [stampId [("k", JVal.jstr "r")] 3, stampId [("k", JVal.jstr "q")] 2,
           stampId [("k", JVal.jstr "p")] 1]
    ∧ (database_query exStTie "a" none none 10).results
        = [stampId [("k", JVal.jstr "x")] 1, stampId [("k", JVal.jstr "y")] 2] :=
  ⟨sorted_queryRecords st t qk qv l, by decide, by decide⟩

/-- C7 (confirmed). `NotFound` is a returned outcome, not a thrown failure:
when no document of the namespace has the requested id, `database_get`
returns the not-found dictionary — success flag false, empty results list,
zero count, and a descriptive message — and that dictionary differs from
the operational-failure dictionary of the exception branch for every
possible error message, because the failure shape omits the `results` and
`count` keys. -/
theorem get_notfound_normal (st : Store) (t : String) (rid : Nat)
    (h : ∀ d ∈ st.docs, ¬(d.ns = t ∧ d.id = rid)) :
    database_get st t rid
      = { success := false, results := some [], count := some 0,
          error := some ("Record " ++ toString rid ++ " not found.") }
    ∧ (∀ e, database_get st t rid ≠ getOperationalFailure e) := by
  have hfind : st.docs.find? (fun d => d.ns == t && d.id == rid) = none := by
    apply List.find?_eq_none.mpr
    intro d hd hcontra
    rw [Bool.and_eq_true] at hcontra
    exact h d hd ⟨by simpa using hcontra.1, by simpa using hcontra.2⟩
  have heq : database_get st t rid
      = { success := false, results := some [], count := some 0,
          error := some ("Record " ++ toString rid ++ " not found.") } := by
    unfold database_get
    rw [hfind]
  refine ⟨heq, ?_⟩
  intro e hcontra
  rw [heq] at hcontra
  have hres := congrArg GetResult.results hcontra
  simp [getOperationalFailure] at hres

theorem get_notfound_normal_witness :
    database_get Store.empty "a" 1
      = { success := false, results := some [], count := some 0,
          error := some ("Record " ++ toString 1 ++ " not found.") }
    ∧ database_get Store.empty "a" 1 ≠ getOperationalFailure "boom" :=
  ⟨(get_notfound_normal Store.empty "a" 1 (by decide)).1,
   (get_notfound_normal Store.empty "a" 1 (by decide)).2 "boom"⟩

/-- C10 (confirmed). Falsy edge cases of the public interface: a query with
`query_key` equal to the empty string, or with `query_value` equal to None,
applies no predicate and returns exactly what the no-predicate query
returns; and a save whose payload `id` field is falsy (absent, 0, or the
empty string) takes the insert path directly, identical to an insert with
no update lookup. -/
theorem falsy_key_and_id_edge_cases :
    (∀ st t qv l, database_query st t (some "") qv l
        = database_query st t none qv l)
    ∧ (∀ st t qk l, database_query st t qk none l
        = database_query st t none none l)
    ∧ (∀ st now t p, truthyOpt (getKey p "id") = false →
        database_save st now t p = insertNew st now t p) := by
  refine ⟨?_, ?_, ?_⟩
  · intro st t qv l
    have hfil : filteredDocs st t (some "") qv = filteredDocs st t none qv := by
      cases qv <;> simp [filteredDocs]
    simp [database_query, queryRecords, hfil]
  · intro st t qk l
    have hfil : filteredDocs st t qk none = filteredDocs st t none none := by
      cases qk <;> simp [filteredDocs]
    simp [database_query, queryRecords, hfil]
  · intro st now t p hf
    cases hkey : getKey p "id" with
    | none => simp only [database_save, hkey]
    | some rid =>
      have htr : truthy rid = false := by
        simpa [truthyOpt, hkey] using hf
      simp only [database_save, hkey, htr, Bool.false_eq_true, if_false]

theorem falsy_key_and_id_edge_cases_witness :
    database_save Store.empty 0 "a" [("id", JVal.jnum 0)]
      = insertNew Store.empty 0 "a" [("id", JVal.jnum 0)] :=
  falsy_key_and_id_edge_cases.2.2 Store.empty 0 "a" [("id", JVal.jnum 0)]
    (by decide)
